import Mathlib

/-!
Verification of `dict_definition.py` (ZwodahS/python-common): a shallow
embedding of the field-definition hierarchy and the four document
operations (validate, default, clean, merge), with theorems checking the
specification's claims against the code.

Python values are embedded as the inductive `Value`; Python dicts are
association lists with unique keys (insertion ordered, as Python dicts
are); runtime exceptions (NameError / TypeError / AttributeError) are
embedded with `Except PyErr` or an explicit error component.
-/

namespace DictDef

/-- Embedding of the Python runtime values a document can hold.
`float` and `datetime` instances are not needed by any claim and are
omitted from the value universe; the corresponding field kinds are kept. -/
inductive Value where
  | none
  | vbool (b : Bool)
  | vint (n : Int)
  | vstr (s : String)
  | vlist (xs : List Value)
  | vdict (d : List (String × Value))

/-- Python runtime exceptions that the translated code can raise. -/
inductive PyErr where
  | nameError (missing : String)
  | typeError
  | attributeError

/-- The `default` slot of a field: a plain value, or a callable.
Callables are embedded as indices into an environment
`genv : Nat → FieldDef → Value` supplied to the operations, so that "the
callable is invoked with the field instance as sole argument" is visible
in the model. A Python `default=None` is the `Option.none` of the
surrounding `Option DefaultVal`. -/
inductive DefaultVal where
  | lit (v : Value)
  | gen (n : Nat)

/-- The keyword arguments accepted by `Field.__init__`.
`choices` is embedded as the list of allowed values that Python's
`value not in self.choices` iterates (a list's elements, or a dict's
keys). The `reversed_choices` index is derived data never read by any
document operation and is not carried. -/
structure FieldOpts where
  is_required : Bool
  choices : Option (List Value)
  default : Option DefaultVal

/-- The field-definition class hierarchy of `dict_definition.py`.
`base` is a plain `Field` (no `type` attribute), `number` is a direct
`NumberField` (also no `type` attribute); `int`, `float`, `bool`, `list`,
`dict`, `definedDict`, `datetime` set the `type` attributes the
corresponding subclasses set.  A `string` regex is embedded as the
match-at-start test `String → Bool` of the compiled pattern.
A `definedDict` field carries the nested schema's field table
(`cls._fields`), in declaration order. -/
inductive FieldDef where
  | base (opts : FieldOpts)
  | string (regex : Option (String → Bool)) (opts : FieldOpts)
  | number (min max : Option Int) (opts : FieldOpts)
  | int (min max : Option Int) (opts : FieldOpts)
  | float (min max : Option Int) (opts : FieldOpts)
  | bool (opts : FieldOpts)
  | list (inner : Option FieldDef) (opts : FieldOpts)
  | dict (opts : FieldOpts)
  | definedDict (model : List (String × FieldDef)) (opts : FieldOpts)
  | datetime (opts : FieldOpts)

/-- The `FieldOpts` common to every field constructor. -/
def fieldOpts : FieldDef → FieldOpts
  | .base o => o
  | .string _ o => o
  | .number _ _ o => o
  | .int _ _ o => o
  | .float _ _ o => o
  | .bool o => o
  | .list _ o => o
  | .dict o => o
  | .definedDict _ o => o
  | .datetime o => o

def isRequired (f : FieldDef) : Bool := (fieldOpts f).is_required

def fieldChoices (f : FieldDef) : Option (List Value) := (fieldOpts f).choices

def fieldDefault (f : FieldDef) : Option DefaultVal := (fieldOpts f).default

/-! ### Python dict primitives on association lists -/

/-- Model of `key in d` for a dict. -/
def hasKey : List (String × Value) → String → Bool
  | [], _ => false
  | (k, _) :: rest, key => if k = key then true else hasKey rest key

/-- Model of `d.get(key)` / `d[key]` lookup (first matching entry; keys are unique). -/
def dictGet : List (String × Value) → String → Option Value
  | [], _ => Option.none
  | (k, v) :: rest, key => if k = key then some v else dictGet rest key

/-- Model of `d.get(key, None)`: lookup with null default. -/
def dictGetD (d : List (String × Value)) (key : String) : Value :=
  (dictGet d key).getD Value.none

/-- Replace the value stored under an existing key, keeping its
position. -/
def dictReplace : List (String × Value) → String → Value → List (String × Value)
  | [], _, _ => []
  | (k1, v1) :: rest, key, v =>
      if k1 = key then (key, v) :: dictReplace rest key v
      else (k1, v1) :: dictReplace rest key v

/-- Model of `d[key] = v`: replace in place when the key exists (keeping its
position, as Python dicts do), else append a new entry. -/
def dictSet (d : List (String × Value)) (key : String) (v : Value) :
    List (String × Value) :=
  if hasKey d key then dictReplace d key v
  else d ++ [(key, v)]

/-- Model of `d.pop(key)`. -/
def dictPop (d : List (String × Value)) (key : String) : List (String × Value) :=
  d.filter (fun p => p.1 ≠ key)

/-- Model of `key in cls._fields` on a field table. -/
def fieldsHasKey : List (String × FieldDef) → String → Bool
  | [], _ => false
  | (k, _) :: rest, key => if k = key then true else fieldsHasKey rest key

/-- Model of `cls._fields.get(key)` on a field table. -/
def fieldsGet : List (String × FieldDef) → String → Option FieldDef
  | [], _ => Option.none
  | (k, f) :: rest, key => if k = key then some f else fieldsGet rest key

/-! ### Python equality and membership -/

/-- Numeric reading of a value for comparisons: Python's `bool` is a
subclass of `int`, so `True`/`False` compare as `1`/`0`. -/
def toNum : Value → Option Int
  | .vint n => some n
  | .vbool b => some (if b then 1 else 0)
  | _ => Option.none

mutual

/-- Python `==` on embedded values (numeric cross-equality between
`bool` and `int`; lists elementwise; dicts by key lookup). -/
def pyEq : Value → Value → Bool
  | .none, .none => true
  | .vbool a, .vbool b => a = b
  | .vbool a, .vint b => (if a then (1 : Int) else 0) = b
  | .vint a, .vbool b => a = (if b then (1 : Int) else 0)
  | .vint a, .vint b => a = b
  | .vstr a, .vstr b => a = b
  | .vlist a, .vlist b => pyEqList a b
  | .vdict a, .vdict b => a.length = b.length && pyEqDictEntries a b
  | _, _ => false

def pyEqList : List Value → List Value → Bool
  | [], [] => true
  | a :: as, b :: bs => pyEq a b && pyEqList as bs
  | _, _ => false

/-- Each entry of the first dict has a matching entry in the second. -/
def pyEqDictEntries : List (String × Value) → List (String × Value) → Bool
  | [], _ => true
  | (k, v) :: rest, other =>
      pyEqLookup v k other && pyEqDictEntries rest other

def pyEqLookup (v : Value) (k : String) : List (String × Value) → Bool
  | [] => false
  | (k2, v2) :: rest => if k2 = k then pyEq v v2 else pyEqLookup v k rest

end

/-- Model of `value in xs` membership by Python equality. -/
def pyMem (v : Value) : List Value → Bool
  | [] => false
  | x :: rest => pyEq v x || pyMem v rest

/-! ### `Field.is_valid_type` and `Field.get_error` -/

/-- Model of `Field.is_valid_type`: vacuously true when the field class sets no
`type` attribute (plain `Field`, `NumberField`); `None` always passes;
otherwise `isinstance(value, self.type)`.  Python's `bool` is a subclass
of `int`, so booleans are instances of `int` and of `(float, int)`. -/
def isValidType : FieldDef → Value → Bool
  | .base _, _ => true
  | .number _ _ _, _ => true
  | _, .none => true
  | .string _ _, .vstr _ => true
  | .int _ _ _, .vint _ => true
  | .int _ _ _, .vbool _ => true
  | .float _ _ _, .vint _ => true
  | .float _ _ _, .vbool _ => true
  | .bool _, .vbool _ => true
  | .list _ _, .vlist _ => true
  | .dict _, .vdict _ => true
  | .definedDict _ _, .vdict _ => true
  | _, _ => false

/-- Model of `Field.get_error`: type check, then `choices` membership.  Returns
`("type", value)` or `("value", value)` tuples, or nothing.  Raises
nothing. -/
def baseGetError (f : FieldDef) (value : Value) : Option (String × Value) :=
  if !(isValidType f value) then some ("type", value)
  else
    match fieldChoices f with
    | some cs => if !(pyMem value cs) then some ("value", value) else Option.none
    | Option.none => Option.none

/-- The range test of `NumberField.get_error`:
`(self.min is not None and value < self.min) or
 (self.max is not None and value >= self.max)`, with Python's
short-circuit evaluation; comparing a non-numeric value against a set
bound raises `TypeError`. -/
def numberRangeExceeded (min max : Option Int) (value : Value) :
    Except PyErr Bool :=
  match min with
  | some lo =>
      match toNum value with
      | Option.none => .error .typeError
      | some n =>
          if n < lo then .ok true
          else
            match max with
            | some hi =>
                match toNum value with
                | Option.none => .error .typeError
                | some m => .ok (hi ≤ m)
            | Option.none => .ok false
  | Option.none =>
      match max with
      | some hi =>
          match toNum value with
          | Option.none => .error .typeError
          | some m => .ok (hi ≤ m)
      | Option.none => .ok false

/-- Model of `NumberField.get_error` after the parent check: `None` passes, then
the range test. -/
def numberGetError (min max : Option Int) (f : FieldDef) (value : Value) :
    Except PyErr (Option (String × Value)) :=
  match baseGetError f value with
  | some e => .ok (some e)
  | Option.none =>
      match value with
      | .none => .ok Option.none
      | v =>
          match numberRangeExceeded min max v with
          | .error e => .error e
          | .ok true => .ok (some ("value (out of range)", v))
          | .ok false => .ok Option.none

/-- Model of `get_error` dispatched over the hierarchy.  Validation problems are
returned as `some (kind, value)` in the `.ok` component; runtime
exceptions are `.error`.

* `StringField.get_error`: parent check, then
  `self.regex is not None and not self.regex.match(value)`.  After the
  parent check the value is a string or `None`; calling
  `regex.match(None)` raises `TypeError`.
* `ListField.get_error` (source lines 163-177): line 164 binds the
  misspelled local `paraent_error`; line 165 then reads the undefined
  name `parent_error`, so every call raises `NameError` and the
  `inner_type` element loop below it is unreachable.
* `BoolField`, `DictField`, `DefinedDictField`, `DateTimeField` do not
  override `get_error`. -/
def fieldGetError : FieldDef → Value → Except PyErr (Option (String × Value))
  | .base o, value => .ok (baseGetError (.base o) value)
  | .string regex o, value =>
      match baseGetError (.string regex o) value with
      | some e => .ok (some e)
      | Option.none =>
          match regex with
          | Option.none => .ok Option.none
          | some r =>
              match value with
              | .vstr s => .ok (if r s then Option.none else some ("value", .vstr s))
              | _ => .error .typeError
  | .number min max o, value => numberGetError min max (.number min max o) value
  | .int min max o, value => numberGetError min max (.int min max o) value
  | .float min max o, value => numberGetError min max (.float min max o) value
  | .bool o, value => .ok (baseGetError (.bool o) value)
  | .list inner o, value =>
      let _paraent_error := baseGetError (.list inner o) value
      .error (.nameError "parent_error")
  | .dict o, value => .ok (baseGetError (.dict o) value)
  | .definedDict model o, value => .ok (baseGetError (.definedDict model o) value)
  | .datetime o, value => .ok (baseGetError (.datetime o) value)

/-! ### `key in document` / `document.get(key)` on arbitrary values

The validation generator recurses into nested-schema values without
checking that they are dicts, so `key in document` and
`document.get(key)` can run on any value. -/

/-- Prefix test on character lists (for Python substring membership). -/
def leadsWith : List Char → List Char → Bool
  | [], _ => true
  | _ :: _, [] => false
  | a :: as, b :: bs => a = b && leadsWith as bs

/-- Substring test on character lists. -/
def occursIn (p : List Char) : List Char → Bool
  | [] => leadsWith p []
  | c :: rest => leadsWith p (c :: rest) || occursIn p rest

/-- Python `key in value`: dict key lookup, list membership, string
substring; `TypeError` on values that support no `in`. -/
def pyContains (doc : Value) (key : String) : Except PyErr Bool :=
  match doc with
  | .vdict d => .ok (hasKey d key)
  | .vlist xs => .ok (xs.any (fun v => pyEq v (.vstr key)))
  | .vstr s => .ok (occursIn key.data s.data)
  | _ => .error .typeError

/-- Python `value.get(key)`: only dicts have `.get`; anything else
raises `AttributeError`. -/
def pyGet (doc : Value) (key : String) : Except PyErr Value :=
  match doc with
  | .vdict d => .ok (dictGetD d key)
  | _ => .error .attributeError

/-! ### `DefinedDict._get_document_errors` (the validation generator) -/

/-- One record of the validation sequence: a 3-tuple
`(key_string,) + (kind, value)` from a field error, or the 2-tuple
`(key_string, "required")`. -/
inductive ErrRecord where
  | err (path : String) (kind : String) (value : Value)
  | required (path : String)

/-- Model of `key if not parent else ".".join([parent, key])`. -/
def keyString (parent : Option String) (key : String) : String :=
  match parent with
  | Option.none => key
  | some p => p ++ "." ++ key

/-- The run of the `_get_document_errors` generator: the records yielded
in order, and the exception (if any) that terminated the iteration.  All
yielded records precede the exception.  For each field in table order:
if the key is in the document, run `get_error`, yield its result if any,
and for a `DefinedDictField` recurse into the nested model on the value
with the extended path (even if `get_error` already reported an error,
and whatever the value's type); otherwise yield `(path, "required")`
when the field is required. -/
def getDocErrors :
    List (String × FieldDef) → Value → Option String →
    List ErrRecord × Option PyErr
  | [], _, _ => ([], Option.none)
  | (key, FieldDef.definedDict model mo) :: rest, doc, parent =>
      let ks := keyString parent key
      match pyContains doc key with
      | .error e => ([], some e)
      | .ok false =>
          let restRun := getDocErrors rest doc parent
          ((if isRequired (.definedDict model mo) then [ErrRecord.required ks] else [])
             ++ restRun.1,
           restRun.2)
      | .ok true =>
          match pyGet doc key with
          | .error e => ([], some e)
          | .ok value =>
              match fieldGetError (.definedDict model mo) value with
              | .error e => ([], some e)
              | .ok optErr =>
                  let here :=
                    match optErr with
                    | Option.none => []
                    | some (kind, v) => [ErrRecord.err ks kind v]
                  let nested := getDocErrors model value (some ks)
                  match nested.2 with
                  | some e => (here ++ nested.1, some e)
                  | Option.none =>
                      let restRun := getDocErrors rest doc parent
                      (here ++ nested.1 ++ restRun.1, restRun.2)
  | (key, defn) :: rest, doc, parent =>
      let ks := keyString parent key
      match pyContains doc key with
      | .error e => ([], some e)
      | .ok false =>
          let restRun := getDocErrors rest doc parent
          ((if isRequired defn then [ErrRecord.required ks] else []) ++ restRun.1,
           restRun.2)
      | .ok true =>
          match pyGet doc key with
          | .error e => ([], some e)
          | .ok value =>
              match fieldGetError defn value with
              | .error e => ([], some e)
              | .ok optErr =>
                  let here :=
                    match optErr with
                    | Option.none => []
                    | some (kind, v) => [ErrRecord.err ks kind v]
                  let restRun := getDocErrors rest doc parent
                  (here ++ restRun.1, restRun.2)

/-- Model of `get_document_errors`: `list(...)` forces the whole generator, so a
runtime exception propagates out of the call. -/
def getDocumentErrors (fields : List (String × FieldDef)) (doc : Value) :
    Except PyErr (List ErrRecord) :=
  match getDocErrors fields doc Option.none with
  | (records, Option.none) => .ok records
  | (_, some e) => .error e

/-- Model of `is_valid`: pull only the first element of the generator.  A first
yielded record means `False` (later exceptions are never reached); an
exception before the first yield propagates; exhaustion means `True`. -/
def isValid (fields : List (String × FieldDef)) (doc : Value) :
    Except PyErr Bool :=
  match getDocErrors fields doc Option.none with
  | ([], Option.none) => .ok true
  | ([], some e) => .error e
  | (_ :: _, _) => .ok false

/-! ### `make_default` and `get_default_value` -/

mutual

/-- Model of `get_default_value`, with the callable environment `genv`.
`DefinedDictField` overrides it to `self.model.make_default()`,
ignoring the `default` slot's content; the base version returns `None`
for no default, invokes a callable default with the field itself as the
sole argument, and returns a plain default as-is. -/
def getDefaultValue (genv : Nat → FieldDef → Value) (f : FieldDef) : Value :=
  match f with
  | .definedDict model _ => .vdict (makeDefault genv model)
  | f =>
      match fieldDefault f with
      | Option.none => Value.none
      | some (.lit v) => v
      | some (.gen n) => genv n f

/-- Model of `make_default`: build a fresh dict holding, for every field whose
`default` slot is set, the field's computed default value.  With unique
field names, assigning into a fresh dict in table order appends the
entries in that order. -/
def makeDefault (genv : Nat → FieldDef → Value) :
    List (String × FieldDef) → List (String × Value)
  | [] => []
  | (key, defn) :: rest =>
      if (fieldDefault defn).isSome then
        (key, getDefaultValue genv defn) :: makeDefault genv rest
      else
        makeDefault genv rest

end

/-! ### `clean` -/

/-- The `remove_undefined` sweep: drop every document key not in the
field table (order of the independent pops does not matter; the kept
entries stay in document order). -/
def removeUndefined (fields : List (String × FieldDef))
    (doc : List (String × Value)) : List (String × Value) :=
  doc.filter (fun p => fieldsHasKey fields p.1)

mutual

/-- The present-key branch of the `clean` loop for one field: pop a null
value (unless `an` = `allow_none`); for a `DefinedDictField` whose value
is a dict, recursively clean the nested dict — the recursive call passes
no flags, so it runs with the defaults `set_default=True,
remove_undefined=True, allow_none=False, populate_none=False` (hence the
inlined `removeUndefined`); otherwise leave the entry alone. -/
def cleanPresent (genv : Nat → FieldDef → Value) :
    FieldDef → String → List (String × Value) → Bool → List (String × Value)
  | .definedDict model _, key, doc, an =>
      match dictGetD doc key with
      | .none => if an then doc else dictPop doc key
      | .vdict d =>
          dictSet doc key
            (.vdict (removeUndefined model (cleanLoop genv model d true false false)))
      | _ => doc
  | _, key, doc, an =>
      match dictGetD doc key with
      | .none => if an then doc else dictPop doc key
      | _ => doc

/-- The per-field loop of `clean` (flags `sd` = `set_default`,
`an` = `allow_none`, `pn` = `populate_none`): for an absent key, set the
default (when one is configured and `sd`) or else null (when `pn`); for
a present key, `cleanPresent`. -/
def cleanLoop (genv : Nat → FieldDef → Value) :
    List (String × FieldDef) → List (String × Value) → Bool → Bool → Bool →
    List (String × Value)
  | [], doc, _, _, _ => doc
  | (key, defn) :: rest, doc, sd, an, pn =>
      let doc' :=
        if !(hasKey doc key) then
          if (fieldDefault defn).isSome && sd then
            dictSet doc key (getDefaultValue genv defn)
          else if pn then
            dictSet doc key Value.none
          else
            doc
        else
          cleanPresent genv defn key doc an
      cleanLoop genv rest doc' sd an pn

end

/-- Model of `clean(document, set_default, remove_undefined, allow_none,
populate_none)`: the per-field loop, then the `remove_undefined`
sweep. -/
def cleanRun (genv : Nat → FieldDef → Value) (fields : List (String × FieldDef))
    (doc : List (String × Value)) (sd ru an pn : Bool) :
    List (String × Value) :=
  let d1 := cleanLoop genv fields doc sd an pn
  if ru then removeUndefined fields d1 else d1

/-! ### `update` (merge) -/

/-- Model of `existing.update(patch)`: Python's shallow dict update, assigning
each patch entry in order. -/
def dictUpdate (dv : List (String × Value)) (pv : List (String × Value)) :
    List (String × Value) :=
  pv.foldl (fun acc p => dictSet acc p.1 p.2) dv

mutual

/-- The body of the `update` loop for one declared key: when
`document.get(key, None) is None`, assign the patch value; else for a
`DefinedDictField` recursively update the existing value with the patch
value; else when both values are dicts, shallow-merge the patch dict
over the existing one; else overwrite with the patch value. -/
def updateAtKey :
    FieldDef → List (String × Value) → String → Value →
    List (String × Value) × Option PyErr
  | .definedDict model _, d, key, value =>
      match dictGetD d key with
      | .none => (dictSet d key value, Option.none)
      | cur =>
          let inner := pyUpdate model cur value
          (dictSet d key inner.1, inner.2)
  | _, d, key, value =>
      match dictGetD d key with
      | .none => (dictSet d key value, Option.none)
      | .vdict dv =>
          match value with
          | .vdict pv => (dictSet d key (.vdict (dictUpdate dv pv)), Option.none)
          | _ => (dictSet d key value, Option.none)
      | _ => (dictSet d key value, Option.none)
termination_by _f _d _k v => (sizeOf v, 1)

/-- The loop of `DefinedDict.update` over `new_value.items()`, carrying
the mutated document (and stopping at a runtime exception, which leaves
the mutations made so far in place).  Patch keys not in the field table
are skipped.  `document.get` on a non-dict document raises
`AttributeError`. -/
def updateLoop (fields : List (String × FieldDef)) :
    List (String × Value) → Value → Value × Option PyErr
  | [], doc => (doc, Option.none)
  | (key, value) :: rest, doc =>
      match fieldsGet fields key with
      | Option.none => updateLoop fields rest doc
      | some defn =>
          match doc with
          | .vdict d =>
              let step := updateAtKey defn d key value
              match step.2 with
              | some e => (.vdict step.1, some e)
              | Option.none => updateLoop fields rest (.vdict step.1)
          | _ => (doc, some .attributeError)
termination_by patch _ => (sizeOf patch, 2)

/-- Model of `DefinedDict.update(document, new_value)`: iterating
`new_value.items()` requires the patch to be a dict (else
`AttributeError` before any mutation). -/
def pyUpdate (fields : List (String × FieldDef)) (doc patch : Value) :
    Value × Option PyErr :=
  match patch with
  | .vdict p => updateLoop fields p doc
  | _ => (doc, some .attributeError)
termination_by (sizeOf patch, 0)

end

/-! ### Concrete schema fixtures used by the theorems -/

/-- Field options with nothing set (`Field()` keyword defaults). -/
def optsPlain : FieldOpts := ⟨false, Option.none, Option.none⟩

/-- Field options with `is_required=True`. -/
def optsRequired : FieldOpts := ⟨true, Option.none, Option.none⟩

/-- An `IntField()` with no choices, bounds or default. -/
def intPlain : FieldDef := .int Option.none Option.none optsPlain

/-- A callable environment whose every callable returns the integer 7. -/
def genvSeven : Nat → FieldDef → Value := fun _ _ => .vint 7

/-- An `IntField(default=5)`. -/
def fldLitFive : FieldDef :=
  .int Option.none Option.none ⟨false, Option.none, some (.lit (.vint 5))⟩

/-- An `IntField(default=fn)` whose callable is slot 0 of the environment. -/
def fldGenZero : FieldDef :=
  .int Option.none Option.none ⟨false, Option.none, some (.gen 0)⟩

/-- A `ListField(inner_type=IntField())`. -/
def listIntField : FieldDef := .list (some intPlain) optsPlain

/-- A schema with a list field (inner type integer) declared before a
required text field, and a document where the list key holds a list and
the required key is absent. -/
def fieldsListReq : List (String × FieldDef) :=
  [("items", listIntField), ("name", .string Option.none optsRequired)]

def docListOnly : Value := .vdict [("items", .vlist [])]

/-- A two-field nested model `{b: int, c: int}`. -/
def modelBC : List (String × FieldDef) := [("b", intPlain), ("c", intPlain)]

/-- A schema where `a` is a nested-schema field over `modelBC`. -/
def fieldsNestedA : List (String × FieldDef) := [("a", .definedDict modelBC optsPlain)]

/-- A schema where `a` is a plain map (`DictField`) field. -/
def fieldsMapA : List (String × FieldDef) := [("a", .dict optsPlain)]

/-! ### Claim theorems -/

/-- Claim C1 (code_bug evidence).  The claim says `validateErrors` and the
`get_error` calls it makes never raise.  The code raises: every call of
`ListField.get_error` evaluates the parent check into the misspelled
local `paraent_error` and then reads the undefined name `parent_error`,
raising `NameError` regardless of the value; and `StringField.get_error`
with a configured regex and no choices evaluates `regex.match(None)` on
a null value, raising `TypeError`. -/
theorem listfield_and_regex_get_error_raise :
    (∀ (inner : Option FieldDef) (opts : FieldOpts) (value : Value),
       fieldGetError (.list inner opts) value = .error (.nameError "parent_error"))
    ∧ (∀ (matcher : String → Bool) (req : Bool) (d : Option DefaultVal),
       fieldGetError (.string (some matcher) ⟨req, Option.none, d⟩) Value.none
         = .error .typeError) :=
  ⟨fun _ _ _ => rfl, fun _ _ _ => rfl⟩

/-- Claim C2 (code_bug evidence).  The claim says a list field with an
inner definition returns the first failing element's error.  On the list
`[1, "x"]` the inner `IntField` would report `("type", "x")`, but
`ListField.get_error` raises `NameError` (undefined `parent_error`)
before the element loop, so the inner check is unreachable. -/
theorem listfield_inner_check_unreachable :
    fieldGetError intPlain (.vstr "x") = .ok (some ("type", .vstr "x"))
    ∧ fieldGetError listIntField (.vlist [.vint 1, .vstr "x"])
        = .error (.nameError "parent_error") :=
  ⟨rfl, rfl⟩

/-- Claim C3: for a `NumberField` with no choices and both bounds set,
`get_error` reports `("value (out of range)", value)` exactly when
`value < min` or `value >= max` (lower bound inclusive, upper bound
exclusive); with `min=0, max=10` the value 10 is invalid, 9 is valid and
-1 is invalid. -/
theorem numberfield_range_check :
    (∀ (v lo hi : Int) (req : Bool) (d : Option DefaultVal),
       fieldGetError (.number (some lo) (some hi) ⟨req, Option.none, d⟩) (.vint v)
         = .ok (if v < lo ∨ hi ≤ v
                then some ("value (out of range)", .vint v) else Option.none))
    ∧ fieldGetError (.number (some 0) (some 10) optsPlain) (.vint 10)
        = .ok (some ("value (out of range)", .vint 10))
    ∧ fieldGetError (.number (some 0) (some 10) optsPlain) (.vint 9) = .ok Option.none
    ∧ fieldGetError (.number (some 0) (some 10) optsPlain) (.vint (-1))
        = .ok (some ("value (out of range)", .vint (-1))) := by
  refine ⟨fun v lo hi req d => ?_, rfl, rfl, rfl⟩
  simp only [fieldGetError, numberGetError, baseGetError, isValidType, fieldChoices,
    fieldOpts, Bool.not_true, numberRangeExceeded, toNum]
  by_cases h1 : v < lo
  · simp [h1]
  · by_cases h2 : hi ≤ v
    · simp [h1, h2]
    · simp [h1, h2]

/-- Claim C4 (code_bug evidence).  In the schema `fieldsListReq` the
field `name` is required and absent from `docListOnly`, yet iterating
the validation generator raises `NameError` (from the list field's
`get_error`) before any record is yielded: no `required` record appears,
`get_document_errors` raises, and `is_valid` raises instead of returning
`False`. -/
theorem required_record_preempted_by_exception :
    fieldsGet fieldsListReq "name" = some (.string Option.none optsRequired)
    ∧ isRequired (.string Option.none optsRequired) = true
    ∧ pyContains docListOnly "name" = .ok false
    ∧ getDocErrors fieldsListReq docListOnly Option.none
        = ([], some (.nameError "parent_error"))
    ∧ getDocumentErrors fieldsListReq docListOnly = .error (.nameError "parent_error")
    ∧ isValid fieldsListReq docListOnly = .error (.nameError "parent_error") := by
  refine ⟨by simp [fieldsGet, fieldsListReq], rfl, by simp [pyContains, docListOnly, hasKey], ?_, ?_, ?_⟩ <;>
    simp [getDocumentErrors, isValid, getDocErrors, fieldsListReq, docListOnly, listIntField,
      intPlain, optsPlain, optsRequired, pyContains, hasKey, keyString, pyGet, dictGetD,
      dictGet, fieldGetError]

/-- Claim C5: `make_default` stores a literal default as-is, invokes a
callable default with the field definition itself as the sole argument,
and omits fields with no default: on the schema
`{a: default 5, b: default = fn returning 7, c: no default}` it yields
`{a: 5, b: 7}` with `c` absent. -/
theorem make_default_contents :
    (∀ genv : Nat → FieldDef → Value, getDefaultValue genv fldGenZero = genv 0 fldGenZero)
    ∧ makeDefault genvSeven [("a", fldLitFive), ("b", fldGenZero), ("c", intPlain)]
        = [("a", .vint 5), ("b", .vint 7)] := by
  constructor
  · intro genv
    simp [getDefaultValue, fldGenZero, fieldDefault, fieldOpts]
  · simp [makeDefault, getDefaultValue, fldLitFive, fldGenZero, intPlain, genvSeven,
      optsPlain, fieldDefault, fieldOpts]

/-- Claim C8: when `clean` meets a declared nested-schema field whose
present value is a map, the nested map is cleaned with the four flags'
default values (`set_default=True, remove_undefined=True,
allow_none=False, populate_none=False`), whatever flags the caller
passed to the outer `clean`. -/
theorem clean_nested_uses_default_flags
    (genv : Nat → FieldDef → Value) (k : String)
    (model : List (String × FieldDef)) (opts : FieldOpts)
    (d : List (String × Value)) (sd ru an pn : Bool) :
    cleanRun genv [(k, .definedDict model opts)] [(k, .vdict d)] sd ru an pn
      = [(k, .vdict (cleanRun genv model d true true false false))] := by
  cases ru <;>
    simp [cleanRun, cleanLoop, cleanPresent, hasKey, dictGetD, dictGet, dictSet, dictReplace,
      removeUndefined, fieldsHasKey]

/-- Claim C10: an `IntField` with no choices reports no error at all on
a boolean value, because Python's `bool` is a subclass of `int` and the
type check accepts any instance of the field's type. -/
theorem intfield_accepts_bool :
    (∀ (b req : Bool) (d : Option DefaultVal),
       fieldGetError (.int Option.none Option.none ⟨req, Option.none, d⟩) (.vbool b)
         = .ok Option.none)
    ∧ (∀ (b : Bool) (mn mx : Option Int) (opts : FieldOpts),
       isValidType (.int mn mx opts) (.vbool b) = true) :=
  ⟨fun _ _ _ => rfl, fun _ _ _ _ => rfl⟩

/-- Claim C7: merging `{a: {c: 2}}` into `{a: {b: 1}}` yields
`{a: {b: 1, c: 2}}` both when `a` is a nested-schema field (with `b`,
`c` declared on the nested schema) and when `a` is a plain map field;
and for a plain map field the merge at a declared key is exactly the
one-level shallow `dict.update` of the patch map over the existing
map. -/
theorem update_nested_and_map_merge :
    pyUpdate fieldsNestedA (.vdict [("a", .vdict [("b", .vint 1)])])
        (.vdict [("a", .vdict [("c", .vint 2)])])
      = (.vdict [("a", .vdict [("b", .vint 1), ("c", .vint 2)])], Option.none)
    ∧ pyUpdate fieldsMapA (.vdict [("a", .vdict [("b", .vint 1)])])
        (.vdict [("a", .vdict [("c", .vint 2)])])
      = (.vdict [("a", .vdict [("b", .vint 1), ("c", .vint 2)])], Option.none)
    ∧ (∀ (k : String) (opts : FieldOpts) (dv pv : List (String × Value)),
       pyUpdate [(k, .dict opts)] (.vdict [(k, .vdict dv)]) (.vdict [(k, .vdict pv)])
         = (.vdict [(k, .vdict (dictUpdate dv pv))], Option.none)) := by
  refine ⟨?_, ?_, fun k opts dv pv => ?_⟩ <;>
    simp [pyUpdate, updateLoop, updateAtKey, fieldsNestedA, fieldsMapA, modelBC, intPlain,
      optsPlain, fieldsGet, dictGetD, dictGet, dictSet, dictReplace, hasKey, dictUpdate]

/-! ### Frame lemmas for `update` (claim C6) -/

/-- Lookup into a value that may or may not be a dict. -/
def valueAt : Value → String → Option Value
  | .vdict d, k => dictGet d k
  | _, _ => Option.none

theorem dictGet_replace_ne {k key : String} (v : Value)
    (d : List (String × Value)) (hne : k ≠ key) :
    dictGet (dictReplace d key v) k = dictGet d k := by
  induction d with
  | nil => rfl
  | cons p rest ih =>
      cases p with
      | mk k1 v1 =>
          by_cases hp : k1 = key
          · subst hp
            simp [dictReplace, dictGet, Ne.symm hne, ih]
          · simp only [dictReplace, hp, if_false]
            by_cases hk : k1 = k
            · simp [dictGet, hk]
            · simp [dictGet, hk, ih]

theorem dictGet_append_ne {k key : String} (v : Value)
    (d : List (String × Value)) (hne : k ≠ key) :
    dictGet (d ++ [(key, v)]) k = dictGet d k := by
  induction d with
  | nil => simp [dictGet, Ne.symm hne]
  | cons p rest ih =>
      cases p with
      | mk k1 v1 =>
          by_cases hk : k1 = k
          · simp [dictGet, hk]
          · simp [dictGet, hk, ih]

/-- A `d[key] = v` assignment leaves every other key's lookup unchanged. -/
theorem dictGet_dictSet_ne {k key : String} (v : Value)
    (d : List (String × Value)) (hne : k ≠ key) :
    dictGet (dictSet d key v) k = dictGet d k := by
  unfold dictSet
  by_cases h : hasKey d key
  · simp [h, dictGet_replace_ne v d hne]
  · simp [h, dictGet_append_ne v d hne]

theorem fieldsGet_some_hasKey {fields : List (String × FieldDef)} {key : String}
    {f : FieldDef} (h : fieldsGet fields key = some f) :
    fieldsHasKey fields key = true := by
  induction fields with
  | nil => simp [fieldsGet] at h
  | cons p rest ih =>
      cases p with
      | mk k1 f1 =>
          by_cases hk : k1 = key
          · simp [fieldsHasKey, hk]
          · simp only [fieldsGet, hk, if_false] at h
            simp [fieldsHasKey, hk, ih h]

/-- Every branch of the per-key update step only reassigns the treated
key, so lookups at other keys are unchanged. -/
theorem updateAtKey_frame {k key : String} (defn : FieldDef)
    (d : List (String × Value)) (value : Value) (hne : k ≠ key) :
    dictGet (updateAtKey defn d key value).1 k = dictGet d k := by
  cases defn <;>
    · rw [updateAtKey]
      repeat' split
      all_goals simp [dictGet_dictSet_ne _ _ hne]

/-- The update loop touches only keys that are in the patch and the
field table: any other key's lookup in the final document state (also
after a mid-loop exception) is unchanged. -/
theorem updateLoop_frame (p : List (String × Value))
    (fields : List (String × FieldDef)) (d : List (String × Value)) (k : String)
    (h : ¬(hasKey p k = true ∧ fieldsHasKey fields k = true)) :
    valueAt (updateLoop fields p (.vdict d)).1 k = dictGet d k := by
  induction p generalizing d with
  | nil => simp [updateLoop, valueAt]
  | cons kv rest ih =>
      cases kv with
      | mk key value =>
          have hrest : ¬(hasKey rest k = true ∧ fieldsHasKey fields k = true) := by
            intro ⟨h1, h2⟩
            exact h ⟨by simp [hasKey]; by_cases hk : key = k <;> simp [hk, h1], h2⟩
          rw [updateLoop]
          cases hf : fieldsGet fields key with
          | none => exact ih d hrest
          | some defn =>
              have hdecl : fieldsHasKey fields key = true := fieldsGet_some_hasKey hf
              have hne : k ≠ key := by
                intro hkk
                exact h ⟨by simp [hasKey, hkk.symm], hkk ▸ hdecl⟩
              simp only []
              cases hstep : (updateAtKey defn d key value).2 with
              | some e =>
                  simpa [valueAt] using updateAtKey_frame defn d value hne
              | none =>
                  rw [ih _ hrest]
                  exact updateAtKey_frame defn d value hne

/-- Claim C6: `update` modifies the document only at keys that are both
present in the patch and declared in the schema's field table; the
document's value at every other key is left unchanged (patch keys not
declared on the schema are silently ignored). -/
theorem update_frame (fields : List (String × FieldDef))
    (d p : List (String × Value)) (k : String)
    (h : ¬(hasKey p k = true ∧ fieldsHasKey fields k = true)) :
    valueAt (pyUpdate fields (.vdict d) (.vdict p)).1 k = dictGet d k := by
  rw [pyUpdate]
  exact updateLoop_frame p fields d k h

/-- Witness for C6 at a concrete input: the patch key `z` is not
declared, the untouched key `b` keeps its value. -/
theorem update_frame_witness :
    ¬(hasKey [("z", Value.vint 2)] "b" = true
        ∧ fieldsHasKey fieldsMapA "b" = true)
    ∧ valueAt (pyUpdate fieldsMapA (.vdict [("b", .vint 1)])
          (.vdict [("z", .vint 2)])).1 "b" = dictGet [("b", Value.vint 1)] "b" := by
  constructor
  · simp [hasKey]
  · exact update_frame fieldsMapA [("b", .vint 1)] [("z", .vint 2)] "b"
      (by simp [hasKey])

/-! ### Idempotence of `clean` on `make_default` output (claim C9) -/

/-- Null test on a value. -/
def isNoneV : Value → Bool
  | .none => true
  | _ => false

/-- Key uniqueness of a field table (always true for an actual Python
class, whose `_fields` is a dict). -/
def fieldsKeysDistinct : List (String × FieldDef) → Bool
  | [] => true
  | (k, _) :: rest => !(fieldsHasKey rest k) && fieldsKeysDistinct rest

mutual

/-- One field has no null-valued default, and its nested model (if any)
is a well-formed schema with no null-valued defaults. -/
def goodField (genv : Nat → FieldDef → Value) : FieldDef → Bool
  | .definedDict model _ => fieldsKeysDistinct model && goodSchema genv model
  | f => !(fieldDefault f).isSome || !(isNoneV (getDefaultValue genv f))

/-- No field of the schema, at any nesting depth, has a null-valued
default, and every nested model has distinct keys. -/
def goodSchema (genv : Nat → FieldDef → Value) : List (String × FieldDef) → Bool
  | [] => true
  | (_, f) :: rest => goodField genv f && goodSchema genv rest

end

mutual

/-- The value a defaulted field holds after `clean`: for a nested-schema
field, the cleaned nested default document; otherwise the computed
default value itself. -/
def normVal (genv : Nat → FieldDef → Value) : FieldDef → Value
  | .definedDict model _ => .vdict (normDefault genv model)
  | f => getDefaultValue genv f

/-- The expected fixed point of `clean` on `make_default` output. -/
def normDefault (genv : Nat → FieldDef → Value) :
    List (String × FieldDef) → List (String × Value)
  | [] => []
  | (k, f) :: rest =>
      if (fieldDefault f).isSome then (k, normVal genv f) :: normDefault genv rest
      else normDefault genv rest

end

theorem fieldsHasKey_cons_weaken {rest : List (String × FieldDef)}
    {k key : String} {f : FieldDef} (h : fieldsHasKey rest key = true) :
    fieldsHasKey ((k, f) :: rest) key = true := by
  by_cases hk : k = key <;> simp [fieldsHasKey, hk, h]

theorem hasKey_makeDefault_false (genv : Nat → FieldDef → Value)
    (fields : List (String × FieldDef)) (k : String)
    (h : fieldsHasKey fields k = false) :
    hasKey (makeDefault genv fields) k = false := by
  induction fields with
  | nil => simp [makeDefault, hasKey]
  | cons p rest ih =>
      cases p with
      | mk k1 f =>
          have hne : ¬(k1 = k) := by
            intro hk
            simp [fieldsHasKey, hk] at h
          have hrest : fieldsHasKey rest k = false := by
            simpa [fieldsHasKey, hne] using h
          rw [makeDefault]
          by_cases hd : (fieldDefault f).isSome <;>
            simp [hd, hasKey, hne, ih hrest]

theorem hasKey_normDefault_false (genv : Nat → FieldDef → Value)
    (fields : List (String × FieldDef)) (k : String)
    (h : fieldsHasKey fields k = false) :
    hasKey (normDefault genv fields) k = false := by
  induction fields with
  | nil => simp [normDefault, hasKey]
  | cons p rest ih =>
      cases p with
      | mk k1 f =>
          have hne : ¬(k1 = k) := by
            intro hk
            simp [fieldsHasKey, hk] at h
          have hrest : fieldsHasKey rest k = false := by
            simpa [fieldsHasKey, hne] using h
          rw [normDefault]
          by_cases hd : (fieldDefault f).isSome <;>
            simp [hd, hasKey, hne, ih hrest]

theorem normDefault_keys_declared (genv : Nat → FieldDef → Value)
    (fields : List (String × FieldDef)) :
    ∀ p ∈ normDefault genv fields, fieldsHasKey fields p.1 = true := by
  induction fields with
  | nil => simp [normDefault]
  | cons q rest ih =>
      cases q with
      | mk k f =>
          intro p hp
          rw [normDefault] at hp
          by_cases hd : (fieldDefault f).isSome
          · simp only [hd, if_true, List.mem_cons] at hp
            rcases hp with hp | hp
            · simp [hp, fieldsHasKey]
            · exact fieldsHasKey_cons_weaken (ih p hp)
          · simp only [hd, if_false] at hp
            exact fieldsHasKey_cons_weaken (ih p hp)

/-- Removing undefined keys from the cleaned default document removes
nothing. -/
theorem removeUndefined_normDefault (genv : Nat → FieldDef → Value)
    (fields : List (String × FieldDef)) :
    removeUndefined fields (normDefault genv fields) = normDefault genv fields := by
  unfold removeUndefined
  exact List.filter_eq_self.mpr (normDefault_keys_declared genv fields)

theorem dictReplace_absent {d : List (String × Value)} {key : String}
    (v : Value) (h : hasKey d key = false) : dictReplace d key v = d := by
  induction d with
  | nil => rfl
  | cons p rest ih =>
      cases p with
      | mk k1 v1 =>
          have hne : ¬(k1 = key) := by
            intro hk
            simp [hasKey, hk] at h
          have hrest : hasKey rest key = false := by
            simpa [hasKey, hne] using h
          simp [dictReplace, hne, ih hrest]

/-- Assignment at the head key of a dict whose tail lacks that key. -/
theorem dictSet_head {d : List (String × Value)} {k : String}
    (w v : Value) (h : hasKey d k = false) :
    dictSet ((k, w) :: d) k v = (k, v) :: d := by
  simp [dictSet, hasKey, dictReplace, dictReplace_absent v h]

theorem hasKey_cons_ne {doc : List (String × Value)} {k key : String}
    (v : Value) (hne : ¬(k = key)) :
    hasKey ((k, v) :: doc) key = hasKey doc key := by
  simp [hasKey, hne]

theorem dictGetD_cons_ne {doc : List (String × Value)} {k key : String}
    (v : Value) (hne : ¬(k = key)) :
    dictGetD ((k, v) :: doc) key = dictGetD doc key := by
  simp [dictGetD, dictGet, hne]

theorem dictSet_cons_ne {doc : List (String × Value)} {k key : String}
    (v w : Value) (hne : ¬(k = key)) :
    dictSet ((k, v) :: doc) key w = (k, v) :: dictSet doc key w := by
  unfold dictSet
  rw [hasKey_cons_ne v hne]
  by_cases h : hasKey doc key
  · simp [h, dictReplace, hne]
  · simp [h]

theorem dictPop_cons_ne {doc : List (String × Value)} {k key : String}
    (v : Value) (hne : ¬(k = key)) :
    dictPop ((k, v) :: doc) key = (k, v) :: dictPop doc key := by
  simp [dictPop, hne]

/-- The present-key step for one field never touches entries under other
keys: it commutes with a cons entry under a different key. -/
theorem cleanPresent_cons_ne (genv : Nat → FieldDef → Value) (defn : FieldDef)
    {doc : List (String × Value)} {k key : String} (v : Value) (an : Bool)
    (hne : ¬(k = key)) :
    cleanPresent genv defn key ((k, v) :: doc) an
      = (k, v) :: cleanPresent genv defn key doc an := by
  cases defn <;>
    · rw [cleanPresent, cleanPresent, dictGetD_cons_ne v hne]
      cases hd : dictGetD doc key <;>
        simp [hd, dictSet_cons_ne v _ hne, dictPop_cons_ne v hne]
      all_goals (cases an <;> simp [dictPop_cons_ne v hne])

/-- The `clean` loop never touches entries under keys that are not in
its field table: it commutes with a cons entry under such a key. -/
theorem cleanLoop_cons_notDeclared (genv : Nat → FieldDef → Value)
    (fields : List (String × FieldDef)) :
    ∀ (doc : List (String × Value)) (k : String) (v : Value) (sd an pn : Bool),
      fieldsHasKey fields k = false →
      cleanLoop genv fields ((k, v) :: doc) sd an pn
        = (k, v) :: cleanLoop genv fields doc sd an pn := by
  induction fields with
  | nil => intro doc k v sd an pn _; simp [cleanLoop]
  | cons p rest ih =>
      intro doc k v sd an pn h
      cases p with
      | mk key defn =>
          have hne : ¬(key = k) := by
            intro hk
            simp [fieldsHasKey, hk] at h
          have hrest : fieldsHasKey rest k = false := by
            simpa [fieldsHasKey, hne] using h
          have hne' : ¬(k = key) := fun hk => hne hk.symm
          have hset : ∀ w, dictSet ((k, v) :: doc) key w = (k, v) :: dictSet doc key w :=
            fun w => dictSet_cons_ne v w hne'
          rw [cleanLoop, cleanLoop, hasKey_cons_ne v hne',
            cleanPresent_cons_ne genv defn v an hne']
          simp only [hset]
          simp only [← apply_ite (List.cons (k, v))]
          exact ih _ k v sd an pn hrest

/-- Discriminator for nested-schema fields. -/
def isDefinedDict : FieldDef → Bool
  | .definedDict _ _ => true
  | _ => false

/-- For every field kind other than nested-schema, the present-key step
of `clean` leaves a non-null value alone. -/
theorem cleanPresent_plain (genv : Nat → FieldDef → Value) (f : FieldDef)
    (k : String) (doc : List (String × Value)) (an : Bool)
    (hf : isDefinedDict f = false)
    (hw : isNoneV (dictGetD doc k) = false) :
    cleanPresent genv f k doc an = doc := by
  cases f
  case definedDict model mo => exact absurd hf (by simp [isDefinedDict])
  all_goals simp only [cleanPresent]
  all_goals
    cases hv : dictGetD doc k <;>
      first
      | rfl
      | (rw [hv] at hw; simp [isNoneV] at hw)

/-- For every field kind other than nested-schema, a well-formed
defaulted field's computed default is not null. -/
theorem goodField_plain_notNone (genv : Nat → FieldDef → Value) (f : FieldDef)
    (hf : isDefinedDict f = false) (hd : (fieldDefault f).isSome = true)
    (hg : goodField genv f = true) :
    isNoneV (getDefaultValue genv f) = false := by
  cases f
  case definedDict model mo => exact absurd hf (by simp [isDefinedDict])
  all_goals
    simp only [goodField, hd, Bool.not_true, Bool.false_or, Bool.not_eq_true'] at hg
  all_goals exact hg

/-- For every field kind other than nested-schema, the cleaned default
value is the computed default value itself. -/
theorem normVal_plain (genv : Nat → FieldDef → Value) (f : FieldDef)
    (hf : isDefinedDict f = false) :
    normVal genv f = getDefaultValue genv f := by
  cases f
  case definedDict model mo => exact absurd hf (by simp [isDefinedDict])
  all_goals simp [normVal]

/-- The present-key step on a non-nested defaulted head entry holding
the computed default leaves the document unchanged. -/
theorem cleanPresent_plainDefaultHead (genv : Nat → FieldDef → Value)
    (f : FieldDef) (k : String) (tail : List (String × Value))
    (hf : isDefinedDict f = false) (hd : (fieldDefault f).isSome = true)
    (hg : goodField genv f = true) :
    cleanPresent genv f k ((k, getDefaultValue genv f) :: tail) false
      = (k, normVal genv f) :: tail := by
  rw [normVal_plain genv f hf]
  exact cleanPresent_plain genv f k _ false hf
    (by simpa [dictGetD, dictGet] using goodField_plain_notNone genv f hf hd hg)

/-- The present-key step on a non-nested defaulted head entry holding
the cleaned default leaves the document unchanged. -/
theorem cleanPresent_plainNormHead (genv : Nat → FieldDef → Value)
    (f : FieldDef) (k : String) (tail : List (String × Value))
    (hf : isDefinedDict f = false) (hd : (fieldDefault f).isSome = true)
    (hg : goodField genv f = true) :
    cleanPresent genv f k ((k, normVal genv f) :: tail) false
      = (k, normVal genv f) :: tail := by
  rw [normVal_plain genv f hf]
  exact cleanPresent_plain genv f k _ false hf
    (by simpa [dictGetD, dictGet] using goodField_plain_notNone genv f hf hd hg)

mutual

/-- The present-key step of `clean` on a defaulted head entry holding
the field's freshly computed default value rewrites it to the cleaned
default value `normVal`. -/
theorem cleanPresent_defaultHead (genv : Nat → FieldDef → Value) :
    ∀ (f : FieldDef) (k : String) (tail : List (String × Value)),
      (fieldDefault f).isSome = true → goodField genv f = true →
      hasKey tail k = false →
      cleanPresent genv f k ((k, getDefaultValue genv f) :: tail) false
        = (k, normVal genv f) :: tail
  | .definedDict model mo, k, tail, _hd, hg, ht => by
      have hmg : fieldsKeysDistinct model = true ∧ goodSchema genv model = true := by
        simpa [goodField, Bool.and_eq_true] using hg
      have hgd : getDefaultValue genv (FieldDef.definedDict model mo)
          = .vdict (makeDefault genv model) := by
        simp [getDefaultValue]
      rw [hgd]
      have hget : dictGetD ((k, Value.vdict (makeDefault genv model)) :: tail) k
          = .vdict (makeDefault genv model) := by
        simp [dictGetD, dictGet]
      simp only [cleanPresent, hget]
      rw [cleanLoop_makeDefault genv model hmg.1 hmg.2,
        removeUndefined_normDefault genv model, dictSet_head _ _ ht]
      simp [normVal]
  | .base o, k, tail, hd, hg, _ht =>
      cleanPresent_plainDefaultHead genv (.base o) k tail rfl hd hg
  | .string r o, k, tail, hd, hg, _ht =>
      cleanPresent_plainDefaultHead genv (.string r o) k tail rfl hd hg
  | .number mn mx o, k, tail, hd, hg, _ht =>
      cleanPresent_plainDefaultHead genv (.number mn mx o) k tail rfl hd hg
  | .int mn mx o, k, tail, hd, hg, _ht =>
      cleanPresent_plainDefaultHead genv (.int mn mx o) k tail rfl hd hg
  | .float mn mx o, k, tail, hd, hg, _ht =>
      cleanPresent_plainDefaultHead genv (.float mn mx o) k tail rfl hd hg
  | .bool o, k, tail, hd, hg, _ht =>
      cleanPresent_plainDefaultHead genv (.bool o) k tail rfl hd hg
  | .list i o, k, tail, hd, hg, _ht =>
      cleanPresent_plainDefaultHead genv (.list i o) k tail rfl hd hg
  | .dict o, k, tail, hd, hg, _ht =>
      cleanPresent_plainDefaultHead genv (.dict o) k tail rfl hd hg
  | .datetime o, k, tail, hd, hg, _ht =>
      cleanPresent_plainDefaultHead genv (.datetime o) k tail rfl hd hg
termination_by f _ _ _ _ _ => (sizeOf f, 0)

/-- Cleaning the `make_default` output (with the recursive call's own
default flags, `remove_undefined` applied separately) yields the cleaned
default document. -/
theorem cleanLoop_makeDefault (genv : Nat → FieldDef → Value) :
    ∀ (fields : List (String × FieldDef)),
      fieldsKeysDistinct fields = true → goodSchema genv fields = true →
      cleanLoop genv fields (makeDefault genv fields) true false false
        = normDefault genv fields
  | [], _, _ => by simp [makeDefault, cleanLoop, normDefault]
  | (k, f) :: rest, h1, h2 => by
      have h1' : fieldsHasKey rest k = false ∧ fieldsKeysDistinct rest = true := by
        simpa [fieldsKeysDistinct, Bool.and_eq_true, Bool.not_eq_true'] using h1
      have h2' : goodField genv f = true ∧ goodSchema genv rest = true := by
        simpa [goodSchema, Bool.and_eq_true] using h2
      cases hd : (fieldDefault f).isSome with
      | false =>
          simp only [makeDefault, normDefault, hd, Bool.false_eq_true, if_false]
          rw [cleanLoop]
          have hmk := hasKey_makeDefault_false genv rest k h1'.1
          simp only [hmk, Bool.not_false, eq_self_iff_true, if_true, hd,
            Bool.false_and, Bool.false_eq_true, if_false]
          exact cleanLoop_makeDefault genv rest h1'.2 h2'.2
      | true =>
          simp only [makeDefault, normDefault, hd, eq_self_iff_true, if_true]
          rw [cleanLoop]
          have hh : hasKey ((k, getDefaultValue genv f) :: makeDefault genv rest) k
              = true := by
            simp [hasKey]
          simp only [hh, Bool.not_true, Bool.false_eq_true, if_false]
          rw [cleanPresent_defaultHead genv f k (makeDefault genv rest) hd h2'.1
            (hasKey_makeDefault_false genv rest k h1'.1)]
          rw [cleanLoop_cons_notDeclared genv rest (makeDefault genv rest) k
            (normVal genv f) true false false h1'.1]
          rw [cleanLoop_makeDefault genv rest h1'.2 h2'.2]
termination_by fields _ _ => (sizeOf fields, 1)

end

mutual

/-- The present-key step of `clean` on a defaulted head entry already
holding the cleaned default value leaves it unchanged. -/
theorem cleanPresent_normHead (genv : Nat → FieldDef → Value) :
    ∀ (f : FieldDef) (k : String) (tail : List (String × Value)),
      (fieldDefault f).isSome = true → goodField genv f = true →
      hasKey tail k = false →
      cleanPresent genv f k ((k, normVal genv f) :: tail) false
        = (k, normVal genv f) :: tail
  | .definedDict model mo, k, tail, _hd, hg, ht => by
      have hmg : fieldsKeysDistinct model = true ∧ goodSchema genv model = true := by
        simpa [goodField, Bool.and_eq_true] using hg
      have hnv : normVal genv (FieldDef.definedDict model mo)
          = .vdict (normDefault genv model) := by
        simp [normVal]
      rw [hnv]
      have hget : dictGetD ((k, Value.vdict (normDefault genv model)) :: tail) k
          = .vdict (normDefault genv model) := by
        simp [dictGetD, dictGet]
      simp only [cleanPresent, hget]
      rw [cleanLoop_normDefault genv model hmg.1 hmg.2,
        removeUndefined_normDefault genv model, dictSet_head _ _ ht]
  | .base o, k, tail, hd, hg, _ht =>
      cleanPresent_plainNormHead genv (.base o) k tail rfl hd hg
  | .string r o, k, tail, hd, hg, _ht =>
      cleanPresent_plainNormHead genv (.string r o) k tail rfl hd hg
  | .number mn mx o, k, tail, hd, hg, _ht =>
      cleanPresent_plainNormHead genv (.number mn mx o) k tail rfl hd hg
  | .int mn mx o, k, tail, hd, hg, _ht =>
      cleanPresent_plainNormHead genv (.int mn mx o) k tail rfl hd hg
  | .float mn mx o, k, tail, hd, hg, _ht =>
      cleanPresent_plainNormHead genv (.float mn mx o) k tail rfl hd hg
  | .bool o, k, tail, hd, hg, _ht =>
      cleanPresent_plainNormHead genv (.bool o) k tail rfl hd hg
  | .list i o, k, tail, hd, hg, _ht =>
      cleanPresent_plainNormHead genv (.list i o) k tail rfl hd hg
  | .dict o, k, tail, hd, hg, _ht =>
      cleanPresent_plainNormHead genv (.dict o) k tail rfl hd hg
  | .datetime o, k, tail, hd, hg, _ht =>
      cleanPresent_plainNormHead genv (.datetime o) k tail rfl hd hg
termination_by f _ _ _ _ _ => (sizeOf f, 0)

/-- The cleaned default document is a fixed point of the `clean` loop. -/
theorem cleanLoop_normDefault (genv : Nat → FieldDef → Value) :
    ∀ (fields : List (String × FieldDef)),
      fieldsKeysDistinct fields = true → goodSchema genv fields = true →
      cleanLoop genv fields (normDefault genv fields) true false false
        = normDefault genv fields
  | [], _, _ => by simp [normDefault, cleanLoop]
  | (k, f) :: rest, h1, h2 => by
      have h1' : fieldsHasKey rest k = false ∧ fieldsKeysDistinct rest = true := by
        simpa [fieldsKeysDistinct, Bool.and_eq_true, Bool.not_eq_true'] using h1
      have h2' : goodField genv f = true ∧ goodSchema genv rest = true := by
        simpa [goodSchema, Bool.and_eq_true] using h2
      cases hd : (fieldDefault f).isSome with
      | false =>
          simp only [normDefault, hd, Bool.false_eq_true, if_false]
          rw [cleanLoop]
          have hmk := hasKey_normDefault_false genv rest k h1'.1
          simp only [hmk, Bool.not_false, eq_self_iff_true, if_true, hd,
            Bool.false_and, Bool.false_eq_true, if_false]
          exact cleanLoop_normDefault genv rest h1'.2 h2'.2
      | true =>
          simp only [normDefault, hd, eq_self_iff_true, if_true]
          rw [cleanLoop]
          have hh : hasKey ((k, normVal genv f) :: normDefault genv rest) k = true := by
            simp [hasKey]
          simp only [hh, Bool.not_true, Bool.false_eq_true, if_false]
          rw [cleanPresent_normHead genv f k (normDefault genv rest) hd h2'.1
            (hasKey_normDefault_false genv rest k h1'.1)]
          rw [cleanLoop_cons_notDeclared genv rest (normDefault genv rest) k
            (normVal genv f) true false false h1'.1]
          rw [cleanLoop_normDefault genv rest h1'.2 h2'.2]
termination_by fields _ _ => (sizeOf fields, 1)

end

/-- Claim C9: for a schema (with unique field names, as Python class
dicts guarantee) none of whose defaults, at any nesting depth, computes
to null, `clean` with its default flags is idempotent on the
`make_default` output: cleaning the already-cleaned default document
changes nothing, so both applications produce identical output. -/
theorem clean_make_default_idempotent (genv : Nat → FieldDef → Value)
    (fields : List (String × FieldDef))
    (h1 : fieldsKeysDistinct fields = true) (h2 : goodSchema genv fields = true) :
    cleanRun genv fields
        (cleanRun genv fields (makeDefault genv fields) true true false false)
        true true false false
      = cleanRun genv fields (makeDefault genv fields) true true false false := by
  have e1 : cleanRun genv fields (makeDefault genv fields) true true false false
      = normDefault genv fields := by
    unfold cleanRun
    rw [cleanLoop_makeDefault genv fields h1 h2]
    simp [removeUndefined_normDefault genv fields]
  rw [e1]
  unfold cleanRun
  rw [cleanLoop_normDefault genv fields h1 h2]
  simp [removeUndefined_normDefault genv fields]

/-- A concrete two-field schema with a nested model, for the C9
witness: `{a: int default 5, n: nested {x: text default "hi"}}`. -/
def fieldsC9 : List (String × FieldDef) :=
  [("a", fldLitFive),
   ("n", .definedDict
      [("x", .string Option.none ⟨false, Option.none, some (.lit (.vstr "hi"))⟩)]
      ⟨false, Option.none, some (.lit (.vint 0))⟩)]

/-- Witness for C9 on the concrete schema `fieldsC9`. -/
theorem clean_make_default_idempotent_witness :
    fieldsKeysDistinct fieldsC9 = true
    ∧ goodSchema genvSeven fieldsC9 = true
    ∧ cleanRun genvSeven fieldsC9
          (cleanRun genvSeven fieldsC9 (makeDefault genvSeven fieldsC9)
            true true false false)
          true true false false
        = cleanRun genvSeven fieldsC9 (makeDefault genvSeven fieldsC9)
            true true false false := by
  have hA : fieldsKeysDistinct fieldsC9 = true := by
    simp [fieldsKeysDistinct, fieldsHasKey, fieldsC9]
  have hB : goodSchema genvSeven fieldsC9 = true := by
    simp [goodSchema, goodField, fieldsC9, fldLitFive, fieldsKeysDistinct,
      fieldsHasKey, fieldDefault, fieldOpts, getDefaultValue, isNoneV, genvSeven]
  exact ⟨hA, hB, clean_make_default_idempotent genvSeven fieldsC9 hA hB⟩

end DictDef
